import Mathlib

/-!
Shallow embedding of the Sodaq_PcInt pin-change interrupt library
(src/src/Sodaq_PcInt.cpp, src/src/Sodaq_PcInt.h).

The library multiplexes the AVR pin-change interrupt: per port group of
eight pins it keeps the last observed 8-bit sample, two 8-bit direction
masks (rising, falling), and eight callback slots with an optional
argument each.  The registration API (attachInterrupt, detachInterrupt,
enableInterrupt, disableInterrupt, getFunc) mutates this state and the
hardware PCMSK (per-pin mask enable) and PCICR (group master enable)
registers; the ISR body (IMPLEMENT_ISR macro) diffs the new port sample
against the stored one and dispatches the armed callbacks.

Modelling conventions:
  - uint8_t values are Nat with an explicit % 256 wherever the C code
    stores into an 8-bit location; bitwise ops are Nat bitwise ops, and
    the C complement ~x of an 8-bit value is 255 ^^^ x.
  - function pointers (callbacks) and void* arguments are Option Nat,
    none standing for nullptr; the numeric payload is an opaque identity
    so that dispatch order and identity of invoked handlers is visible.
  - the platform pin mapping (digitalPinToPCICR / digitalPinToPCMSK /
    digitalPinToPCICRbit / digitalPinToPCMSKbit / digitalPinToBitMask)
    is an external collaborator.  On every AVR board the PCICR and PCMSK
    pointers of a pin are both null or both non-null, digitalPinToBitMask
    yields a one-bit mask 1 << portBit, and the PCMSK register a pin
    points at is the one of its port group; Env.resolve models that
    per-pin record, returning none exactly for the unmapped pins.
  - hardware registers: pcmsk is a per-group register file, pcicr one
    shared register whose bit g is the master enable of group g.
  - the ISR cannot invoke C callbacks in Lean; IMPLEMENT_ISR returns the
    updated port record together with the list of performed invocations
    (bit position, handler, argument, new level) in call order.
-/

/-- Arduino mode constant CHANGE. -/
def CHANGE : Nat := 1

/-- Arduino mode constant FALLING. -/
def FALLING : Nat := 2

/-- Arduino mode constant RISING. -/
def RISING : Nat := 3

/-- Per-pin result of the platform pin mapping: the port group index
(digitalPinToPCICRbit), the bit inside the PCMSK register
(digitalPinToPCMSKbit), and the bit inside the port
(digitalPinToBitMask = 1 <<< portBit). -/
structure PinInfo where
  group : Nat
  pcmskBit : Nat
  portBit : Nat
deriving DecidableEq

/-- The platform environment: the pin mapping (none = the PCICR and PCMSK
pointers of that pin are null) and which port groups are compiled in
(PCINT_INPUT_PORTn defined). -/
structure Env where
  resolve : Nat → Option PinInfo
  portExists : Nat → Bool

/-- Well-formedness of a platform environment, true of every real AVR
board: mapped pins land in groups 0..3 and name bits 0..7. -/
def EnvWF (env : Env) : Prop :=
  ∀ pin info, env.resolve pin = some info →
    info.group < 4 ∧ info.pcmskBit < 8 ∧ info.portBit < 8

/-- The per-port record of the C class PcIntPort: eight callback slots,
eight argument slots, the last observed sample, and the two direction
masks. -/
structure PcIntPort where
  funcs : List (Option Nat)
  args : List (Option Nat)
  state : Nat
  rising : Nat
  falling : Nat
deriving DecidableEq

/-- The PcIntPort default constructor: all slots null, all fields zero. -/
def PcIntPort.init : PcIntPort :=
  { funcs := List.replicate 8 none
    args := List.replicate 8 none
    state := 0
    rising := 0
    falling := 0 }

instance : Inhabited PcIntPort := ⟨PcIntPort.init⟩

/-- The whole mutable state the library touches: the software port
records port0..port3 (indexed by group), the hardware PCMSK register
file, and the hardware PCICR register. -/
structure PcIntState where
  ports : Nat → PcIntPort
  pcmsk : Nat → Nat
  pcicr : Nat

/-- Whether get_port(group) returns a non-null port pointer: the switch
covers cases 0..3, each guarded by PCINT_INPUT_PORTn being defined. -/
def get_port (env : Env) (g : Nat) : Bool :=
  decide (g < 4) && env.portExists g

/-- The function get_port_value: reads the PCINT_INPUT_PORTn pin register
of a compiled-in group (an 8-bit read of the live port lines), 0 for any
other group. -/
def get_port_value (env : Env) (live : Nat → Nat) (g : Nat) : Nat :=
  if get_port env g then live g % 256 else 0

/-- The function bitpos: index of the lowest set bit of an 8-bit mask,
255 (uint8 -1) when no bit of 0..7 is set. -/
def bitpos (mask : Nat) : Nat :=
  if mask.testBit 0 then 0
  else if mask.testBit 1 then 1
  else if mask.testBit 2 then 2
  else if mask.testBit 3 then 3
  else if mask.testBit 4 then 4
  else if mask.testBit 5 then 5
  else if mask.testBit 6 then 6
  else if mask.testBit 7 then 7
  else 255

namespace PcInt

/-- PcInt::attachInterrupt(pin, func, arg, mode).  live is the current
electrical state of the port lines at the moment of the call (read by
get_port_value).  Mirrors the source line by line: store func and arg at
slot bitpos(bitMask), OR the bit into rising when mode is RISING or
CHANGE and into falling when mode is FALLING or CHANGE, reseed state
from the live port value, set the PCMSK bit of the pin, set the PCICR
bit of the group.  No-op when the pin is unmapped or its group is not
compiled in. -/
def attachInterrupt (env : Env) (live : Nat → Nat) (pin : Nat)
    (func arg : Option Nat) (mode : Nat) (st : PcIntState) : PcIntState :=
  match env.resolve pin with
  | none => st
  | some info =>
      if get_port env info.group then
        let mask := (1 <<< info.portBit) % 256
        let pos := bitpos mask
        let p := st.ports info.group
        let p' : PcIntPort :=
          { p with
            funcs := p.funcs.set pos func
            args := p.args.set pos arg
            rising := (p.rising ||| (if mode == RISING || mode == CHANGE then mask else 0)) % 256
            falling := (p.falling ||| (if mode == FALLING || mode == CHANGE then mask else 0)) % 256
            state := get_port_value env live info.group }
        { ports := fun g => if g = info.group then p' else st.ports g
          pcmsk := fun g =>
            if g = info.group then (st.pcmsk g ||| ((1 <<< info.pcmskBit) % 256)) % 256
            else st.pcmsk g
          pcicr := (st.pcicr ||| ((1 <<< info.group) % 256)) % 256 }
      else st

/-- PcInt::detachInterrupt(pin).  Clears the slot and both direction-mask
bits, clears the PCMSK bit of the pin, and clears the PCICR bit of the
group when the resulting PCMSK value equals 0x00F, exactly as the source
line 177 compares (the comment there announces switching the group off
when all of the group are off).  No-op when the pin is unmapped or its
group is not compiled in. -/
def detachInterrupt (env : Env) (pin : Nat) (st : PcIntState) : PcIntState :=
  match env.resolve pin with
  | none => st
  | some info =>
      if get_port env info.group then
        let mask := (1 <<< info.portBit) % 256
        let pos := bitpos mask
        let p := st.ports info.group
        let p' : PcIntPort :=
          { p with
            funcs := p.funcs.set pos none
            args := p.args.set pos none
            rising := p.rising &&& (255 ^^^ mask)
            falling := p.falling &&& (255 ^^^ mask) }
        let pcmskNew := st.pcmsk info.group &&& (255 ^^^ ((1 <<< info.pcmskBit) % 256))
        let pcicrNew :=
          if pcmskNew = 0x00F then st.pcicr &&& (255 ^^^ ((1 <<< info.group) % 256))
          else st.pcicr
        { ports := fun g => if g = info.group then p' else st.ports g
          pcmsk := fun g => if g = info.group then pcmskNew else st.pcmsk g
          pcicr := pcicrNew }
      else st

/-- PcInt::enableInterrupt(pin): sets the PCMSK bit of the pin.  The
source only requires the PCMSK pointer to be non-null; on every board
that coincides with the pin being mapped. -/
def enableInterrupt (env : Env) (pin : Nat) (st : PcIntState) : PcIntState :=
  match env.resolve pin with
  | none => st
  | some info =>
      { st with
        pcmsk := fun g =>
          if g = info.group then (st.pcmsk g ||| ((1 <<< info.pcmskBit) % 256)) % 256
          else st.pcmsk g }

/-- PcInt::disableInterrupt(pin): clears the PCMSK bit of the pin. -/
def disableInterrupt (env : Env) (pin : Nat) (st : PcIntState) : PcIntState :=
  match env.resolve pin with
  | none => st
  | some info =>
      { st with
        pcmsk := fun g =>
          if g = info.group then st.pcmsk g &&& (255 ^^^ ((1 <<< info.pcmskBit) % 256))
          else st.pcmsk g }

/-- PcInt::getFunc(group, nr): the stored handler of slot nr of a
compiled-in group with nr < 8 (the C code reinterprets it as the simple
no-argument callback type), nullptr otherwise. -/
def getFunc (env : Env) (st : PcIntState) (group nr : Nat) : Option Nat :=
  if get_port env group && decide (nr < 8) then (st.ports group).funcs.getD nr none
  else none

end PcInt

/-- One callback invocation performed by the ISR body: the bit position,
the invoked handler, the argument passed, and the new logical level of
the bit. -/
structure Call where
  nr : Nat
  func : Nat
  arg : Option Nat
  value : Bool
deriving DecidableEq

/-- The trigger word computed by the ISR body (source line 219):
trigger_pins = (port.state XOR new_state) AND ((port.rising AND
new_state) OR (port.falling AND NOT new_state)), with NOT the 8-bit
complement of the uint8 new_state. -/
def trigger_pins (p : PcIntPort) (new_state : Nat) : Nat :=
  (p.state ^^^ new_state) &&&
    ((p.rising &&& new_state) ||| (p.falling &&& (255 ^^^ new_state)))

/-- One iteration of the dispatch loop of the ISR body: at bit position
nr, when the trigger bit is set and the slot holds a handler, the
invocation performed (handler, stored argument, new level of the bit);
none when the loop body skips. -/
def isrSlot (p : PcIntPort) (trig new_state nr : Nat) : Option Call :=
  if trig.testBit nr then
    match p.funcs.getD nr none with
    | some f =>
        some { nr := nr, func := f, arg := p.args.getD nr none, value := new_state.testBit nr }
    | none => none
  else none

/-- The body of the IMPLEMENT_ISR macro for one port group: read the pin
register (8-bit), compute trigger_pins, store the new sample, then for
nr = 0..7 in ascending order invoke the slot of every triggered bit that
holds a handler, passing the argument and the new level of the bit.
Returns the updated port record and the list of invocations in order. -/
def IMPLEMENT_ISR (p : PcIntPort) (pin_register : Nat) : PcIntPort × List Call :=
  let new_state := pin_register % 256
  ({ p with state := new_state },
   (List.range 8).filterMap (isrSlot p (trigger_pins p new_state) new_state))

/-!
Shared concrete fixtures: a one-group board (group 0 compiled in, pins
0..7 mapped straight onto bits 0..7 of group 0) and a few states,
reused by the witnesses and counterexamples below.
-/

/-- A board with only port group 0 compiled in, where pin n (n < 8) maps
to group 0, PCMSK bit n, port bit n, and every other pin is unmapped. -/
def envA : Env where
  resolve := fun p => if p < 8 then some ⟨0, p, p⟩ else none
  portExists := fun g => g == 0

/-- The power-on state: all ports initialised by the PcIntPort
constructor, all hardware registers zero. -/
def stZero : PcIntState where
  ports := fun _ => PcIntPort.init
  pcmsk := fun _ => 0
  pcicr := 0

/-- A state of the one-group board in which only the pin at bit 2 is
attached (mode RISING, handler 1): PCMSK0 holds just bit 2, PCICR has
the group 0 master enable set. -/
def stOnePin : PcIntState where
  ports := fun _ =>
    { funcs := [none, none, some 1, none, none, none, none, none]
      args := List.replicate 8 none
      state := 0
      rising := 4
      falling := 0 }
  pcmsk := fun _ => 4
  pcicr := 1

/-- A state of the one-group board in which the pins at bits 0..4 are
attached in mode CHANGE: PCMSK0 = 0x1F, master enable set. -/
def stFivePins : PcIntState where
  ports := fun _ =>
    { funcs := [some 1, some 2, some 3, some 4, some 5, none, none, none]
      args := List.replicate 8 none
      state := 0
      rising := 31
      falling := 31 }
  pcmsk := fun _ => 31
  pcicr := 1

/-!
Helper lemmas about the ISR dispatch loop.
-/

/-- Characterisation of one dispatch-loop iteration: it produces an
invocation exactly when the trigger bit is set and the slot holds a
handler, and the invocation then carries that slot, handler, argument
and the new level of the bit. -/
theorem isrSlot_eq_some_iff (p : PcIntPort) (trig ns nr : Nat) (c : Call) :
    isrSlot p trig ns nr = some c ↔
      trig.testBit nr = true ∧
        ∃ f, p.funcs.getD nr none = some f ∧
          c = { nr := nr, func := f, arg := p.args.getD nr none, value := ns.testBit nr } := by
  unfold isrSlot
  by_cases h : trig.testBit nr
  · cases hf : p.funcs.getD nr none with
    | none => simp [h, hf]
    | some f =>
        simp only [h, if_true, hf, Option.some.injEq, true_and]
        constructor
        · intro hc; exact ⟨f, rfl, hc.symm⟩
        · rintro ⟨f', hf', rfl⟩
          cases hf'; rfl
  · simp [h]

/-- A bit position receives an invocation in an ISR run exactly when it
is one of the eight loop positions, its trigger_pins bit is set, and its
slot holds a handler. -/
theorem IMPLEMENT_ISR_calls_mem (p : PcIntPort) (s nr : Nat) :
    (∃ c ∈ (IMPLEMENT_ISR p s).2, c.nr = nr) ↔
      nr < 8 ∧ (trigger_pins p (s % 256)).testBit nr = true ∧
        p.funcs.getD nr none ≠ none := by
  unfold IMPLEMENT_ISR
  simp only [List.mem_filterMap, List.mem_range]
  constructor
  · rintro ⟨c, ⟨a, ha, hs⟩, rfl⟩
    rcases (isrSlot_eq_some_iff p _ _ a c).mp hs with ⟨ht, f, hf, rfl⟩
    exact ⟨ha, ht, by rw [hf]; exact Option.some_ne_none f⟩
  · rintro ⟨h8, ht, hf⟩
    cases hfv : p.funcs.getD nr none with
    | none => exact absurd hfv hf
    | some f =>
        exact ⟨_, ⟨nr, h8, (isrSlot_eq_some_iff p _ _ nr _).mpr ⟨ht, f, hfv, rfl⟩⟩, rfl⟩

/-!
Claim theorems.
-/

/-- Claim C2 evaluation at the failing inputs.  The source compares the
PCMSK register against 0x00F (decimal 15) instead of 0, against the
stated intent of its own comment (switch the group off when all of the
group are off).  Detaching the only attached pin of stOnePin empties
PCMSK0 yet leaves the PCICR master enable bit set, and detaching bit 4
of stFivePins leaves four pins enabled (PCMSK0 = 15) yet clears the
master enable bit. -/
theorem C2_detach_master_enable_bug :
    (PcInt.detachInterrupt envA 2 stOnePin).pcmsk 0 = 0 ∧
    (PcInt.detachInterrupt envA 2 stOnePin).pcicr = 1 ∧
    (PcInt.detachInterrupt envA 4 stFivePins).pcmsk 0 = 15 ∧
    (PcInt.detachInterrupt envA 4 stFivePins).pcicr = 0 := by
  refine ⟨rfl, rfl, rfl, rfl⟩

/-- Claim C8: for a pin whose platform lookup yields no mapping (null
PCICR and PCMSK pointers), attachInterrupt, detachInterrupt,
enableInterrupt and disableInterrupt leave the whole software and
hardware state unchanged and return nothing. -/
theorem C8_unmapped_pin_noop (env : Env) (live : Nat → Nat) (pin : Nat)
    (func arg : Option Nat) (mode : Nat) (st : PcIntState)
    (h : env.resolve pin = none) :
    PcInt.attachInterrupt env live pin func arg mode st = st ∧
    PcInt.detachInterrupt env pin st = st ∧
    PcInt.enableInterrupt env pin st = st ∧
    PcInt.disableInterrupt env pin st = st := by
  unfold PcInt.attachInterrupt PcInt.detachInterrupt PcInt.enableInterrupt
    PcInt.disableInterrupt
  rw [h]
  exact ⟨rfl, rfl, rfl, rfl⟩

/-- Witness for C8 at a concrete unmapped pin of the one-group board. -/
theorem C8_unmapped_pin_noop_witness :
    PcInt.attachInterrupt envA (fun _ => 0) 9 (some 1) none RISING stZero = stZero ∧
    PcInt.detachInterrupt envA 9 stZero = stZero ∧
    PcInt.enableInterrupt envA 9 stZero = stZero ∧
    PcInt.disableInterrupt envA 9 stZero = stZero :=
  C8_unmapped_pin_noop envA (fun _ => 0) 9 (some 1) none RISING stZero rfl

/-- Claim C9: getFunc is absent exactly when the bit position is out of
range, the group is not a supported port group, or the slot holds no
handler; a present result is the stored handler of that slot. -/
theorem C9_getFunc_absent_iff (env : Env) (st : PcIntState) (group nr : Nat) :
    (PcInt.getFunc env st group nr = none ↔
      8 ≤ nr ∨ get_port env group = false ∨
        (st.ports group).funcs.getD nr none = none) ∧
    (∀ f, PcInt.getFunc env st group nr = some f →
      (st.ports group).funcs.getD nr none = some f) := by
  unfold PcInt.getFunc
  cases hg : get_port env group with
  | false =>
      constructor
      · simp
      · intro f h; simp at h
  | true =>
      by_cases hn : nr < 8
      · have h8 : ¬ (8 ≤ nr) := by omega
        simp [hn, h8]
      · have h8 : 8 ≤ nr := Nat.le_of_not_lt hn
        simp [hn, h8]

/-- Witness for C9 on the one-group board: slot 2 of stOnePin is
populated, slot 3 is empty, group 1 is unsupported, and nr = 8 is out of
range. -/
theorem C9_getFunc_absent_iff_witness :
    (PcInt.getFunc envA stOnePin 0 2 = none ↔
      8 ≤ 2 ∨ get_port envA 0 = false ∨
        (stOnePin.ports 0).funcs.getD 2 none = none) ∧
    (∀ f, PcInt.getFunc envA stOnePin 0 2 = some f →
      (stOnePin.ports 0).funcs.getD 2 none = some f) :=
  C9_getFunc_absent_iff envA stOnePin 0 2

/-- Claim C4: immediately after attachInterrupt on a mapped pin of a
supported group, the lastSample (state) field of that group equals the
live 8-bit port sample read at attach time. -/
theorem C4_attach_reseeds_lastSample (env : Env) (live : Nat → Nat) (pin : Nat)
    (func arg : Option Nat) (mode : Nat) (st : PcIntState) (info : PinInfo)
    (hres : env.resolve pin = some info) (hsup : get_port env info.group = true)
    (hlive : live info.group < 256) :
    ((PcInt.attachInterrupt env live pin func arg mode st).ports info.group).state
      = live info.group := by
  unfold PcInt.attachInterrupt
  rw [hres]
  simp [hsup, get_port_value, Nat.mod_eq_of_lt hlive]

/-- Witness for C4: attaching pin 2 on the one-group board with live
sample 0xB4 reseeds lastSample of group 0 to 0xB4. -/
theorem C4_attach_reseeds_lastSample_witness :
    ((PcInt.attachInterrupt envA (fun _ => 180) 2 (some 1) none RISING stZero).ports 0).state
      = 180 :=
  C4_attach_reseeds_lastSample envA (fun _ => 180) 2 (some 1) none RISING stZero
    ⟨0, 2, 2⟩ rfl rfl (by decide)

/-!
Micro-lemmas about 8-bit arithmetic shared by the claim proofs.
-/

/-- Reducing modulo 256 keeps the low eight bits. -/
theorem testBit_mod256 (x i : Nat) (hi : i < 8) : (x % 256).testBit i = x.testBit i := by
  have h : (256 : Nat) = 2 ^ 8 := by norm_num
  rw [h, Nat.testBit_mod_two_pow]
  simp [hi]

/-- Bits at position eight and above of a uint8 value are clear. -/
theorem testBit_hi_eq_false (x i : Nat) (hx : x < 256) (hi : 8 ≤ i) : x.testBit i = false := by
  refine Nat.testBit_lt_two_pow (lt_of_lt_of_le hx ?_)
  calc (256 : Nat) = 2 ^ 8 := by norm_num
  _ ≤ 2 ^ i := Nat.pow_le_pow_right (by norm_num) hi

/-- The bits of the 8-bit constant 255. -/
theorem testBit_255 (i : Nat) : (255 : Nat).testBit i = decide (i < 8) := by
  have h : (255 : Nat) = 2 ^ 8 - 1 := by norm_num
  rw [h, Nat.testBit_two_pow_sub_one]

/-- The single-bit mask produced by the platform macros. -/
theorem testBit_one_shiftLeft (b i : Nat) : ((1 : Nat) <<< b).testBit i = decide (b = i) := by
  rw [Nat.shiftLeft_eq, one_mul, Nat.testBit_two_pow]

/-- A shifted single bit below position eight is within uint8 range. -/
theorem one_shiftLeft_lt_256 (b : Nat) (hb : b < 8) : (1 : Nat) <<< b < 256 := by
  rw [Nat.shiftLeft_eq, one_mul]
  calc 2 ^ b < 2 ^ 8 := Nat.pow_lt_pow_right one_lt_two hb
  _ = 256 := by norm_num

/-- Claim C5: attachInterrupt ORs the bit mask of the pin into risingMask
exactly when mode is RISING or CHANGE and into fallingMask exactly when
mode is FALLING or CHANGE, never clears an armed bit, and consequently a
pin first attached CHANGE and re-attached RISING keeps its fallingMask
bit. -/
theorem C5_attach_masks_accumulate (env : Env) (live : Nat → Nat) (pin : Nat)
    (func arg : Option Nat) (mode : Nat) (st : PcIntState) (info : PinInfo)
    (hres : env.resolve pin = some info) (hsup : get_port env info.group = true) :
    (∀ i, i < 8 →
      ((PcInt.attachInterrupt env live pin func arg mode st).ports info.group).rising.testBit i
        = ((st.ports info.group).rising.testBit i ||
            ((mode == RISING || mode == CHANGE) &&
              ((1 <<< info.portBit) % 256).testBit i))) ∧
    (∀ i, i < 8 →
      ((PcInt.attachInterrupt env live pin func arg mode st).ports info.group).falling.testBit i
        = ((st.ports info.group).falling.testBit i ||
            ((mode == FALLING || mode == CHANGE) &&
              ((1 <<< info.portBit) % 256).testBit i))) ∧
    (∀ i, i < 8 → (st.ports info.group).rising.testBit i = true →
      ((PcInt.attachInterrupt env live pin func arg mode st).ports info.group).rising.testBit i
        = true) ∧
    (∀ i, i < 8 → (st.ports info.group).falling.testBit i = true →
      ((PcInt.attachInterrupt env live pin func arg mode st).ports info.group).falling.testBit i
        = true) ∧
    (∀ (live2 : Nat → Nat) (f1 a1 f2 a2 : Option Nat) (i : Nat), i < 8 →
      ((1 <<< info.portBit) % 256).testBit i = true →
      ((PcInt.attachInterrupt env live2 pin f2 a2 RISING
          (PcInt.attachInterrupt env live pin f1 a1 CHANGE st)).ports info.group).falling.testBit i
        = true) := by
  have key : ∀ (live1 : Nat → Nat) (f1 a1 : Option Nat) (mode1 : Nat) (st1 : PcIntState),
      ((PcInt.attachInterrupt env live1 pin f1 a1 mode1 st1).ports info.group) =
        { funcs := (st1.ports info.group).funcs.set (bitpos ((1 <<< info.portBit) % 256)) f1
          args := (st1.ports info.group).args.set (bitpos ((1 <<< info.portBit) % 256)) a1
          rising := ((st1.ports info.group).rising |||
            (if mode1 == RISING || mode1 == CHANGE then (1 <<< info.portBit) % 256 else 0)) % 256
          falling := ((st1.ports info.group).falling |||
            (if mode1 == FALLING || mode1 == CHANGE then (1 <<< info.portBit) % 256 else 0)) % 256
          state := get_port_value env live1 info.group } := by
    intro live1 f1 a1 mode1 st1
    unfold PcInt.attachInterrupt
    rw [hres]
    simp [hsup]
  have hrise : ∀ (live1 : Nat → Nat) (f1 a1 : Option Nat) (mode1 : Nat) (st1 : PcIntState)
      (i : Nat), i < 8 →
      ((PcInt.attachInterrupt env live1 pin f1 a1 mode1 st1).ports info.group).rising.testBit i
        = ((st1.ports info.group).rising.testBit i ||
            ((mode1 == RISING || mode1 == CHANGE) && ((1 <<< info.portBit) % 256).testBit i)) := by
    intro live1 f1 a1 mode1 st1 i hi
    rw [key]
    cases hm : (mode1 == RISING || mode1 == CHANGE) <;>
      simp [hm, testBit_mod256 _ _ hi, Nat.testBit_lor]
  have hfall : ∀ (live1 : Nat → Nat) (f1 a1 : Option Nat) (mode1 : Nat) (st1 : PcIntState)
      (i : Nat), i < 8 →
      ((PcInt.attachInterrupt env live1 pin f1 a1 mode1 st1).ports info.group).falling.testBit i
        = ((st1.ports info.group).falling.testBit i ||
            ((mode1 == FALLING || mode1 == CHANGE) && ((1 <<< info.portBit) % 256).testBit i)) := by
    intro live1 f1 a1 mode1 st1 i hi
    rw [key]
    cases hm : (mode1 == FALLING || mode1 == CHANGE) <;>
      simp [hm, testBit_mod256 _ _ hi, Nat.testBit_lor]
  refine ⟨fun i hi => hrise live func arg mode st i hi,
          fun i hi => hfall live func arg mode st i hi,
          fun i hi hset => by rw [hrise live func arg mode st i hi, hset]; simp,
          fun i hi hset => by rw [hfall live func arg mode st i hi, hset]; simp,
          fun live2 f1 a1 f2 a2 i hi hbit => by
            rw [hfall live2 f2 a2 RISING _ i hi, hfall live f1 a1 CHANGE st i hi, hbit]
            simp⟩

/-- Witness for C5 on the one-group board: pin 2 attached CHANGE from the
power-on state and re-attached RISING still has fallingMask bit 2 set. -/
theorem C5_attach_masks_accumulate_witness :
    ((PcInt.attachInterrupt envA (fun _ => 0) 2 (some 9) none RISING
        (PcInt.attachInterrupt envA (fun _ => 0) 2 (some 1) none CHANGE stZero)).ports 0).falling.testBit 2
      = true :=
  (C5_attach_masks_accumulate envA (fun _ => 0) 2 (some 1) none CHANGE stZero
      ⟨0, 2, 2⟩ rfl rfl).2.2.2.2 (fun _ => 0) (some 1) none (some 9) none 2
    (by decide) (by decide)

/-- An OR of two uint8 values stays a uint8 value. -/
theorem lor_lt_256 (x y : Nat) (hx : x < 256) (hy : y < 256) : (x ||| y) < 256 := by
  have h : (256 : Nat) = 2 ^ 8 := by norm_num
  rw [h] at hx hy ⊢
  exact Nat.or_lt_two_pow hx hy

/-- Claim C6: enableInterrupt and disableInterrupt touch only the PCMSK
bit of the pin: every software port record, the PCICR register, the
other PCMSK registers and the other bits of the same PCMSK register are
unchanged; the targeted bit reads set after enable and clear after
disable; a disable followed by a re-enable of a pin whose bit was set
restores the state exactly, so a subsequent ISR run dispatches exactly
as before. -/
theorem C6_enable_disable_frame (env : Env) (pin : Nat) (st : PcIntState) (info : PinInfo)
    (hres : env.resolve pin = some info) (hbit : info.pcmskBit < 8)
    (hreg : st.pcmsk info.group < 256) :
    (PcInt.enableInterrupt env pin st).ports = st.ports ∧
    (PcInt.enableInterrupt env pin st).pcicr = st.pcicr ∧
    (PcInt.disableInterrupt env pin st).ports = st.ports ∧
    (PcInt.disableInterrupt env pin st).pcicr = st.pcicr ∧
    (∀ g, g ≠ info.group →
      (PcInt.enableInterrupt env pin st).pcmsk g = st.pcmsk g ∧
      (PcInt.disableInterrupt env pin st).pcmsk g = st.pcmsk g) ∧
    (∀ b, b ≠ info.pcmskBit →
      ((PcInt.enableInterrupt env pin st).pcmsk info.group).testBit b
        = (st.pcmsk info.group).testBit b ∧
      ((PcInt.disableInterrupt env pin st).pcmsk info.group).testBit b
        = (st.pcmsk info.group).testBit b) ∧
    ((PcInt.enableInterrupt env pin st).pcmsk info.group).testBit info.pcmskBit = true ∧
    ((PcInt.disableInterrupt env pin st).pcmsk info.group).testBit info.pcmskBit = false ∧
    ((st.pcmsk info.group).testBit info.pcmskBit = true →
      PcInt.enableInterrupt env pin (PcInt.disableInterrupt env pin st) = st) ∧
    (∀ g s, IMPLEMENT_ISR ((PcInt.enableInterrupt env pin
        (PcInt.disableInterrupt env pin st)).ports g) s
      = IMPLEMENT_ISR (st.ports g) s) := by
  have hm : ((1 : Nat) <<< info.pcmskBit) % 256 = 1 <<< info.pcmskBit :=
    Nat.mod_eq_of_lt (one_shiftLeft_lt_256 _ hbit)
  have eE : ∀ s : PcIntState, PcInt.enableInterrupt env pin s =
      { s with pcmsk := fun g => if g = info.group
          then (s.pcmsk g ||| ((1 <<< info.pcmskBit) % 256)) % 256 else s.pcmsk g } := by
    intro s; unfold PcInt.enableInterrupt; rw [hres]
  have eD : ∀ s : PcIntState, PcInt.disableInterrupt env pin s =
      { s with pcmsk := fun g => if g = info.group
          then s.pcmsk g &&& (255 ^^^ ((1 <<< info.pcmskBit) % 256)) else s.pcmsk g } := by
    intro s; unfold PcInt.disableInterrupt; rw [hres]
  have hEbitx : ∀ x b, x < 256 →
      ((x ||| ((1 <<< info.pcmskBit) % 256)) % 256).testBit b
        = (if b = info.pcmskBit then true else x.testBit b) := by
    intro x b hx
    by_cases hb : b < 8
    · rw [testBit_mod256 _ _ hb, hm, Nat.testBit_lor, testBit_one_shiftLeft]
      by_cases hbb : b = info.pcmskBit
      · subst hbb; simp
      · have hbb2 : ¬ info.pcmskBit = b := fun h => hbb h.symm
        simp [hbb, hbb2]
    · have hb8 : 8 ≤ b := Nat.le_of_not_lt hb
      rw [testBit_hi_eq_false _ _ (Nat.mod_lt _ (by norm_num)) hb8,
        if_neg (by omega), testBit_hi_eq_false _ _ hx hb8]
  have hDbitx : ∀ x b, x < 256 →
      (x &&& (255 ^^^ ((1 <<< info.pcmskBit) % 256))).testBit b
        = (if b = info.pcmskBit then false else x.testBit b) := by
    intro x b hx
    rw [hm, Nat.testBit_land, Nat.testBit_xor, testBit_255, testBit_one_shiftLeft]
    by_cases hb : b < 8
    · by_cases hbb : b = info.pcmskBit
      · subst hbb; simp [hb]
      · have hbb2 : ¬ info.pcmskBit = b := fun h => hbb h.symm
        simp [hb, hbb, hbb2]
    · have hb8 : 8 ≤ b := Nat.le_of_not_lt hb
      rw [testBit_hi_eq_false _ _ hx hb8]
      simp [hb, (by omega : ¬ b = info.pcmskBit)]
  refine ⟨by rw [eE], by rw [eE], by rw [eD], by rw [eD],
          fun g hg => by rw [eE, eD]; exact ⟨by simp [hg], by simp [hg]⟩,
          fun b hb => ?_, ?_, ?_, fun hset => ?_, fun g s => ?_⟩
  · rw [eE, eD]
    refine ⟨?_, ?_⟩
    · show ((if info.group = info.group
          then (st.pcmsk info.group ||| ((1 <<< info.pcmskBit) % 256)) % 256
          else st.pcmsk info.group) : Nat).testBit b = _
      rw [if_pos rfl, hEbitx _ _ hreg, if_neg hb]
    · show ((if info.group = info.group
          then st.pcmsk info.group &&& (255 ^^^ ((1 <<< info.pcmskBit) % 256))
          else st.pcmsk info.group) : Nat).testBit b = _
      rw [if_pos rfl, hDbitx _ _ hreg, if_neg hb]
  · rw [eE]
    show ((if info.group = info.group
        then (st.pcmsk info.group ||| ((1 <<< info.pcmskBit) % 256)) % 256
        else st.pcmsk info.group) : Nat).testBit info.pcmskBit = true
    rw [if_pos rfl, hEbitx _ _ hreg, if_pos rfl]
  · rw [eD]
    show ((if info.group = info.group
        then st.pcmsk info.group &&& (255 ^^^ ((1 <<< info.pcmskBit) % 256))
        else st.pcmsk info.group) : Nat).testBit info.pcmskBit = false
    rw [if_pos rfl, hDbitx _ _ hreg, if_pos rfl]
  · rw [eD, eE]
    have hpc : (fun g => if g = info.group
        then ((if g = info.group
            then st.pcmsk g &&& (255 ^^^ ((1 <<< info.pcmskBit) % 256))
            else st.pcmsk g) ||| ((1 <<< info.pcmskBit) % 256)) % 256
        else if g = info.group
            then st.pcmsk g &&& (255 ^^^ ((1 <<< info.pcmskBit) % 256))
            else st.pcmsk g) = st.pcmsk := by
      funext g
      by_cases hg : g = info.group
      · rw [if_pos hg, if_pos hg]
        refine Nat.eq_of_testBit_eq fun b => ?_
        have hreg2 : st.pcmsk g < 256 := by rw [hg]; exact hreg
        have hand : st.pcmsk g &&& (255 ^^^ ((1 <<< info.pcmskBit) % 256)) < 256 :=
          lt_of_le_of_lt Nat.and_le_left hreg2
        rw [hEbitx _ _ hand, hDbitx _ _ hreg2]
        by_cases hbb : b = info.pcmskBit
        · rw [if_pos hbb, hbb, hg]; exact hset.symm
        · rw [if_neg hbb, if_neg hbb]
      · rw [if_neg hg, if_neg hg]
    show ({ st with pcmsk := _ } : PcIntState) = st
    rw [hpc]
  · rw [eE, eD]

/-- Witness for C6 on the one-group board: the PCMSK bit of pin 2 reads
set after enable, and disable followed by enable restores stOnePin
exactly. -/
theorem C6_enable_disable_frame_witness :
    ((PcInt.enableInterrupt envA 2 stOnePin).pcmsk 0).testBit 2 = true ∧
    PcInt.enableInterrupt envA 2 (PcInt.disableInterrupt envA 2 stOnePin) = stOnePin :=
  ⟨(C6_enable_disable_frame envA 2 stOnePin ⟨0, 2, 2⟩ rfl (by decide)
      (by decide)).2.2.2.2.2.2.1,
   (C6_enable_disable_frame envA 2 stOnePin ⟨0, 2, 2⟩ rfl (by decide)
      (by decide)).2.2.2.2.2.2.2.2.1 (by decide)⟩

/-- Writing back the value a slot already holds does not change any read
of the slot array. -/
theorem getD_set_of_clear (l : List (Option Nat)) (pos i : Nat) (v : Option Nat)
    (h : l.getD pos none = v) :
    (l.set pos v).getD i none = l.getD i none := by
  rw [List.getD_eq_getElem?_getD, List.getD_eq_getElem?_getD, List.getElem?_set]
  by_cases hip : pos = i
  · subst hip
    by_cases hl : pos < l.length
    · rw [if_pos rfl, if_pos hl]
      have hsome : l[pos]? = some (l[pos]) := List.getElem?_eq_getElem hl
      rw [hsome]
      rw [List.getD_eq_getElem?_getD, hsome] at h
      simpa using h.symm
    · rw [if_pos rfl, if_neg hl]
      have hnone : l[pos]? = none := List.getElem?_eq_none (Nat.le_of_not_lt hl)
      rw [hnone]
  · rw [if_neg hip]

/-- Clearing mask bits that are not set in a uint8 value leaves it
unchanged. -/
theorem land_not_eq_self (x m : Nat) (hx : x < 256) (h : x &&& m = 0) :
    x &&& (255 ^^^ m) = x := by
  refine Nat.eq_of_testBit_eq fun b => ?_
  rw [Nat.testBit_land, Nat.testBit_xor, testBit_255]
  by_cases hb : b < 8
  · have hxm : (x &&& m).testBit b = false := by rw [h]; exact Nat.zero_testBit b
    rw [Nat.testBit_land] at hxm
    by_cases hxb : x.testBit b = true
    · have hmb : m.testBit b = false := by
        cases hmb : m.testBit b with
        | false => rfl
        | true => rw [hxb, hmb] at hxm; cases hxm
      simp [hb, hxb, hmb]
    · have hxb2 : x.testBit b = false := Bool.not_eq_true _ ▸ eq_false_of_ne_true hxb
      simp [hxb2]
  · have hb8 : 8 ≤ b := Nat.le_of_not_lt hb
    rw [testBit_hi_eq_false _ _ hx hb8]
    simp

/-- A uint8 value with the bit at position b clear ANDs with the
single-bit mask of b to zero. -/
theorem land_single_bit_eq_zero (x b : Nat) (h : x.testBit b = false) :
    x &&& ((1 : Nat) <<< b) = 0 := by
  refine Nat.eq_of_testBit_eq fun i => ?_
  rw [Nat.testBit_land, testBit_one_shiftLeft, Nat.zero_testBit]
  by_cases hib : b = i
  · subst hib; rw [h]; rfl
  · simp [hib]

/-- Claim C7: detachInterrupt is idempotent: a second detach of the same
pin leaves the complete software and hardware state exactly as after the
first; and a detach of a pin whose slot, direction-mask bits and PCMSK
bit are already clear leaves all those already-clear fields, the
lastSample field, and the PCMSK registers unchanged. -/
theorem C7_detach_idempotent (env : Env) (pin : Nat) (st : PcIntState) :
    PcInt.detachInterrupt env pin (PcInt.detachInterrupt env pin st)
      = PcInt.detachInterrupt env pin st ∧
    (∀ info, env.resolve pin = some info →
      info.pcmskBit < 8 →
      (st.ports info.group).funcs.getD (bitpos ((1 <<< info.portBit) % 256)) none = none →
      (st.ports info.group).args.getD (bitpos ((1 <<< info.portBit) % 256)) none = none →
      (st.ports info.group).rising &&& ((1 <<< info.portBit) % 256) = 0 →
      (st.ports info.group).falling &&& ((1 <<< info.portBit) % 256) = 0 →
      (st.ports info.group).rising < 256 →
      (st.ports info.group).falling < 256 →
      st.pcmsk info.group < 256 →
      (st.pcmsk info.group).testBit info.pcmskBit = false →
      (∀ i, ((PcInt.detachInterrupt env pin st).ports info.group).funcs.getD i none
          = (st.ports info.group).funcs.getD i none) ∧
      (∀ i, ((PcInt.detachInterrupt env pin st).ports info.group).args.getD i none
          = (st.ports info.group).args.getD i none) ∧
      ((PcInt.detachInterrupt env pin st).ports info.group).rising
          = (st.ports info.group).rising ∧
      ((PcInt.detachInterrupt env pin st).ports info.group).falling
          = (st.ports info.group).falling ∧
      ((PcInt.detachInterrupt env pin st).ports info.group).state
          = (st.ports info.group).state ∧
      (∀ g, (PcInt.detachInterrupt env pin st).pcmsk g = st.pcmsk g)) := by
  have hfix : ∀ x m : Nat, (x &&& (255 ^^^ m)) &&& (255 ^^^ m) = x &&& (255 ^^^ m) :=
    fun x m => by rw [Nat.land_assoc, Nat.and_self]
  cases hres : env.resolve pin with
  | none =>
      have h1 : ∀ s : PcIntState, PcInt.detachInterrupt env pin s = s := by
        intro s; unfold PcInt.detachInterrupt; rw [hres]
      refine ⟨by rw [h1, h1], ?_⟩
      intro info hinfo
      cases hinfo
  | some info =>
      by_cases hsup : get_port env info.group = true
      · have e : ∀ s : PcIntState, PcInt.detachInterrupt env pin s =
            { ports := fun g => if g = info.group then
                { funcs := (s.ports info.group).funcs.set
                    (bitpos ((1 <<< info.portBit) % 256)) none
                  args := (s.ports info.group).args.set
                    (bitpos ((1 <<< info.portBit) % 256)) none
                  state := (s.ports info.group).state
                  rising := (s.ports info.group).rising &&&
                    (255 ^^^ ((1 <<< info.portBit) % 256))
                  falling := (s.ports info.group).falling &&&
                    (255 ^^^ ((1 <<< info.portBit) % 256)) }
                else s.ports g
              pcmsk := fun g => if g = info.group
                then s.pcmsk info.group &&& (255 ^^^ ((1 <<< info.pcmskBit) % 256))
                else s.pcmsk g
              pcicr := if s.pcmsk info.group &&& (255 ^^^ ((1 <<< info.pcmskBit) % 256))
                  = 0x00F
                then s.pcicr &&& (255 ^^^ ((1 <<< info.group) % 256))
                else s.pcicr } := by
          intro s
          unfold PcInt.detachInterrupt
          rw [hres]
          dsimp only
          rw [if_pos hsup]
        constructor
        · rw [e, e st]
          congr 1
          · funext g
            by_cases hg : g = info.group <;>
              simp [hg, List.set_set, hfix]
          · funext g
            by_cases hg : g = info.group <;> simp [hg, hfix]
          · by_cases hc : st.pcmsk info.group &&&
                (255 ^^^ ((1 <<< info.pcmskBit) % 256)) = 0x00F <;>
              simp [hc, hfix]
        · intro info2 hinfo2 hbit hfun harg hrise hfall hr8 hf8 hpc8 hpcbit
          cases hinfo2
          have hport : (PcInt.detachInterrupt env pin st).ports info.group =
              { funcs := (st.ports info.group).funcs.set
                  (bitpos ((1 <<< info.portBit) % 256)) none
                args := (st.ports info.group).args.set
                  (bitpos ((1 <<< info.portBit) % 256)) none
                state := (st.ports info.group).state
                rising := (st.ports info.group).rising &&&
                  (255 ^^^ ((1 <<< info.portBit) % 256))
                falling := (st.ports info.group).falling &&&
                  (255 ^^^ ((1 <<< info.portBit) % 256)) } := by
            rw [e st]; simp
          have hpcg : ∀ g, (PcInt.detachInterrupt env pin st).pcmsk g =
              if g = info.group
                then st.pcmsk info.group &&& (255 ^^^ ((1 <<< info.pcmskBit) % 256))
                else st.pcmsk g := by
            intro g; rw [e st]
          have hm : ((1 : Nat) <<< info.pcmskBit) % 256 = 1 <<< info.pcmskBit :=
            Nat.mod_eq_of_lt (one_shiftLeft_lt_256 _ hbit)
          refine ⟨fun i => by rw [hport]; exact getD_set_of_clear _ _ _ _ hfun,
                  fun i => by rw [hport]; exact getD_set_of_clear _ _ _ _ harg,
                  by rw [hport]; exact land_not_eq_self _ _ hr8 hrise,
                  by rw [hport]; exact land_not_eq_self _ _ hf8 hfall,
                  by rw [hport],
                  fun g => ?_⟩
          rw [hpcg g]
          by_cases hg : g = info.group
          · rw [if_pos hg, hm, land_not_eq_self _ _ hpc8
              (land_single_bit_eq_zero _ _ hpcbit), hg]
          · rw [if_neg hg]
      · have h1 : ∀ s : PcIntState, PcInt.detachInterrupt env pin s = s := by
          intro s
          unfold PcInt.detachInterrupt
          rw [hres]
          dsimp only
          rw [if_neg hsup]
        refine ⟨by rw [h1, h1], ?_⟩
        intro info2 hinfo2 hbit hfun harg hrise hfall hr8 hf8 hpc8 hpcbit
        cases hinfo2
        rw [h1]
        exact ⟨fun i => rfl, fun i => rfl, rfl, rfl, rfl, fun g => rfl⟩

/-- Witness for C7 on the one-group board: double detach of pin 2 equals
single detach on stOnePin, and detach of the never-attached pin 5 of
stOnePin leaves slots, masks, lastSample and PCMSK registers unchanged. -/
theorem C7_detach_idempotent_witness :
    (PcInt.detachInterrupt envA 2 (PcInt.detachInterrupt envA 2 stOnePin)
      = PcInt.detachInterrupt envA 2 stOnePin) ∧
    ((PcInt.detachInterrupt envA 5 stOnePin).ports 0).rising
      = (stOnePin.ports 0).rising ∧
    (∀ g, (PcInt.detachInterrupt envA 5 stOnePin).pcmsk g = stOnePin.pcmsk g) :=
  ⟨(C7_detach_idempotent envA 2 stOnePin).1,
   ((C7_detach_idempotent envA 5 stOnePin).2 ⟨0, 5, 5⟩ rfl (by decide) (by decide)
      (by decide) (by decide) (by decide) (by decide) (by decide) (by decide)
      (by decide)).2.2.1,
   ((C7_detach_idempotent envA 5 stOnePin).2 ⟨0, 5, 5⟩ rfl (by decide) (by decide)
      (by decide) (by decide) (by decide) (by decide) (by decide) (by decide)
      (by decide)).2.2.2.2.2⟩

/-- Claim C10: attachInterrupt overwrites the whole 8-bit lastSample of
the group with the live port sample, so a pending transition of another,
already-attached and armed pin q (which an ISR run before the attach
would have dispatched) is absorbed into the new baseline: an ISR run
after the attach that reads the same sample dispatches no handler at
all. -/
theorem C10_attach_absorbs_pending_edge (env : Env) (live : Nat → Nat) (pin : Nat)
    (func arg : Option Nat) (mode : Nat) (st : PcIntState) (info : PinInfo) (q : Nat)
    (hres : env.resolve pin = some info) (hsup : get_port env info.group = true)
    (hq8 : q < 8)
    (hqfun : (st.ports info.group).funcs.getD q none ≠ none)
    (hqedge : (st.ports info.group).state.testBit q ≠ (live info.group % 256).testBit q)
    (hqdir : ((st.ports info.group).rising.testBit q && (live info.group % 256).testBit q)
        || ((st.ports info.group).falling.testBit q && !((live info.group % 256).testBit q))
        = true) :
    (∃ c ∈ (IMPLEMENT_ISR (st.ports info.group) (live info.group)).2, c.nr = q) ∧
    ((PcInt.attachInterrupt env live pin func arg mode st).ports info.group).state
        = live info.group % 256 ∧
    (IMPLEMENT_ISR ((PcInt.attachInterrupt env live pin func arg mode st).ports info.group)
        (live info.group)).2 = [] := by
  have hstate : ((PcInt.attachInterrupt env live pin func arg mode st).ports
      info.group).state = live info.group % 256 := by
    unfold PcInt.attachInterrupt
    rw [hres]
    simp [hsup, get_port_value]
  refine ⟨?_, hstate, ?_⟩
  · refine (IMPLEMENT_ISR_calls_mem _ _ _).mpr ⟨hq8, ?_, hqfun⟩
    unfold trigger_pins
    rw [Nat.testBit_land, Nat.testBit_xor, Nat.testBit_lor, Nat.testBit_land,
      Nat.testBit_land, Nat.testBit_xor, testBit_255]
    cases hsq : (st.ports info.group).state.testBit q <;>
      cases hnq : (live info.group % 256).testBit q <;>
      simp_all [hq8]
  · have htrig : trigger_pins
        ((PcInt.attachInterrupt env live pin func arg mode st).ports info.group)
        (live info.group % 256) = 0 := by
      unfold trigger_pins
      rw [hstate, Nat.xor_self, Nat.zero_and]
    unfold IMPLEMENT_ISR
    dsimp only
    rw [htrig]
    refine List.filterMap_eq_nil_iff.mpr fun a ha => ?_
    simp [isrSlot, Nat.zero_testBit]

/-- Witness for C10 on the one-group board: stOnePin has the pin at bit 2
attached RISING with last sample 0; the live sample 4 is a pending
rising edge on bit 2 that an ISR run would dispatch, yet after attaching
pin 5 the baseline is 4 and an ISR run at sample 4 dispatches nothing. -/
theorem C10_attach_absorbs_pending_edge_witness :
    (∃ c ∈ (IMPLEMENT_ISR (stOnePin.ports 0) 4).2, c.nr = 2) ∧
    ((PcInt.attachInterrupt envA (fun _ => 4) 5 (some 7) none CHANGE
        stOnePin).ports 0).state = 4 % 256 ∧
    (IMPLEMENT_ISR ((PcInt.attachInterrupt envA (fun _ => 4) 5 (some 7) none CHANGE
        stOnePin).ports 0) 4).2 = [] :=
  C10_attach_absorbs_pending_edge envA (fun _ => 4) 5 (some 7) none CHANGE stOnePin
    ⟨0, 5, 5⟩ 2 rfl rfl (by decide) (by decide) (by decide) (by decide)

/-- Claim C1: an ISR run invokes a callback exactly for the bit positions
whose bit is set in triggered = (lastSample XOR newSample) AND
((risingMask AND newSample) OR (fallingMask AND NOT newSample)) and
whose slot holds a handler; in particular a bit armed RISING only does
not fire on a 1 to 0 transition and fires on the subsequent 0 to 1
transition. -/
theorem C1_isr_edge_detection (p : PcIntPort) (newSample : Nat) (hs : newSample < 256)
    (nr : Nat) (hnr : nr < 8) :
    ((∃ c ∈ (IMPLEMENT_ISR p newSample).2, c.nr = nr) ↔
      (((p.state ^^^ newSample) &&&
        ((p.rising &&& newSample) ||| (p.falling &&& (255 ^^^ newSample)))).testBit nr
          = true ∧
        p.funcs.getD nr none ≠ none)) ∧
    (p.rising.testBit nr = true → p.falling.testBit nr = false →
      p.state.testBit nr = true →
      ∀ s1 s2 : Nat, s1.testBit nr = false → s2.testBit nr = true →
        (∀ c ∈ (IMPLEMENT_ISR p s1).2, c.nr ≠ nr) ∧
        (p.funcs.getD nr none ≠ none →
          ∃ c ∈ (IMPLEMENT_ISR (IMPLEMENT_ISR p s1).1 s2).2, c.nr = nr)) := by
  constructor
  · rw [IMPLEMENT_ISR_calls_mem, Nat.mod_eq_of_lt hs]
    unfold trigger_pins
    constructor
    · rintro ⟨-, ht, hf⟩; exact ⟨ht, hf⟩
    · rintro ⟨ht, hf⟩; exact ⟨hnr, ht, hf⟩
  · intro hr hnf hst s1 s2 h1 h2
    have e1 : (s1 % 256).testBit nr = s1.testBit nr := testBit_mod256 _ _ hnr
    have e2 : (s2 % 256).testBit nr = s2.testBit nr := testBit_mod256 _ _ hnr
    constructor
    · intro c hc hceq
      have hmem : ∃ c ∈ (IMPLEMENT_ISR p s1).2, c.nr = nr := ⟨c, hc, hceq⟩
      rcases (IMPLEMENT_ISR_calls_mem p s1 nr).mp hmem with ⟨-, ht, -⟩
      unfold trigger_pins at ht
      rw [Nat.testBit_land, Nat.testBit_xor, Nat.testBit_lor, Nat.testBit_land,
        Nat.testBit_land, Nat.testBit_xor, testBit_255, e1] at ht
      rw [hst, h1, hnf] at ht
      simp at ht
    · intro hfn
      refine (IMPLEMENT_ISR_calls_mem _ _ _).mpr ⟨hnr, ?_, hfn⟩
      have hproj : (IMPLEMENT_ISR p s1).1 = { p with state := s1 % 256 } := rfl
      rw [hproj]
      unfold trigger_pins
      dsimp only
      rw [Nat.testBit_land, Nat.testBit_xor, Nat.testBit_lor, Nat.testBit_land,
        Nat.testBit_land, Nat.testBit_xor, testBit_255, e1, e2]
      rw [h1, h2, hr]
      simp [hnr]

/-- A port of the one-group board with only bit 2 armed RISING (handler
9) and a last sample in which bit 2 is high. -/
def pRise : PcIntPort where
  funcs := [none, none, some 9, none, none, none, none, none]
  args := List.replicate 8 none
  state := 4
  rising := 4
  falling := 0

/-- Witness for C1 on pRise: a falling sample (0) fires nothing on bit 2,
and the subsequent rising sample (4) fires the bit 2 handler. -/
theorem C1_isr_edge_detection_witness :
    ((∃ c ∈ (IMPLEMENT_ISR pRise 4).2, c.nr = 2) ↔
      (((pRise.state ^^^ 4) &&&
        ((pRise.rising &&& 4) ||| (pRise.falling &&& (255 ^^^ 4)))).testBit 2 = true ∧
        pRise.funcs.getD 2 none ≠ none)) ∧
    (∀ c ∈ (IMPLEMENT_ISR pRise 0).2, c.nr ≠ 2) ∧
    (∃ c ∈ (IMPLEMENT_ISR (IMPLEMENT_ISR pRise 0).1 4).2, c.nr = 2) :=
  ⟨(C1_isr_edge_detection pRise 4 (by decide) 2 (by decide)).1,
   ((C1_isr_edge_detection pRise 4 (by decide) 2 (by decide)).2 (by decide) (by decide)
      (by decide) 0 4 (by decide) (by decide)).1,
   ((C1_isr_edge_detection pRise 4 (by decide) 2 (by decide)).2 (by decide) (by decide)
      (by decide) 0 4 (by decide) (by decide)).2 (by decide)⟩

/-- Claim C3: the dispatch loop of one ISR run visits bit positions 0..7
in ascending order: the invocation list is strictly increasing in bit
position, carries no duplicate bit position, and every triggered bit
position whose slot holds a handler is invoked exactly once. -/
theorem C3_isr_dispatch_ascending (p : PcIntPort) (s : Nat) :
    (IMPLEMENT_ISR p s).2.Pairwise (fun a b => a.nr < b.nr) ∧
    ((IMPLEMENT_ISR p s).2.map Call.nr).Nodup ∧
    (∀ k, k < 8 → (trigger_pins p (s % 256)).testBit k = true →
      p.funcs.getD k none ≠ none →
      List.count k ((IMPLEMENT_ISR p s).2.map Call.nr) = 1) := by
  have hpw : (IMPLEMENT_ISR p s).2.Pairwise (fun a b => a.nr < b.nr) := by
    unfold IMPLEMENT_ISR
    dsimp only
    rw [List.pairwise_filterMap]
    refine (List.pairwise_lt_range 8).imp ?_
    intro a b hab x hx y hy
    rcases (isrSlot_eq_some_iff _ _ _ _ _).mp (Option.mem_def.mp hx) with ⟨-, f, -, rfl⟩
    rcases (isrSlot_eq_some_iff _ _ _ _ _).mp (Option.mem_def.mp hy) with ⟨-, g, -, rfl⟩
    exact hab
  have hnd : ((IMPLEMENT_ISR p s).2.map Call.nr).Nodup :=
    List.pairwise_map.mpr (hpw.imp fun h => Nat.ne_of_lt h)
  refine ⟨hpw, hnd, fun k hk ht hf => ?_⟩
  rcases (IMPLEMENT_ISR_calls_mem p s k).mpr ⟨hk, ht, hf⟩ with ⟨c, hc, hck⟩
  exact List.count_eq_one_of_mem hnd (List.mem_map.mpr ⟨c, hc, hck⟩)

/-- A port of the one-group board with handlers on bits 0 and 5, both
armed CHANGE, and last sample 0. -/
def pBoth : PcIntPort where
  funcs := [some 1, none, none, none, none, some 5, none, none]
  args := [none, none, none, none, none, some 42, none, none]
  state := 0
  rising := 33
  falling := 33

/-- Witness for C3 on pBoth: the sample 33 flips bits 0 and 5 at once;
the run is ascending in bit position and each of the two handlers is
invoked exactly once. -/
theorem C3_isr_dispatch_ascending_witness :
    (IMPLEMENT_ISR pBoth 33).2.Pairwise (fun a b => a.nr < b.nr) ∧
    List.count 0 ((IMPLEMENT_ISR pBoth 33).2.map Call.nr) = 1 ∧
    List.count 5 ((IMPLEMENT_ISR pBoth 33).2.map Call.nr) = 1 :=
  ⟨(C3_isr_dispatch_ascending pBoth 33).1,
   (C3_isr_dispatch_ascending pBoth 33).2.2 0 (by decide) (by decide) (by decide),
   (C3_isr_dispatch_ascending pBoth 33).2.2 5 (by decide) (by decide) (by decide)⟩
